import Mathlib

/-!
Verification of the frame-update and transmission engine of
src/src/module/outputartnet/outputartnet.py (EEGsynth outputartnet module).

The module keeps a 512-entry DMX frame (`dmxframe`), rescales and clamps
per-channel control values read from an external value source, detects
changes, and broadcasts the frame over Art-Net either on change or as a
0.5-second heartbeat.  Shutdown blanks the frame and resends it six times
with 0.1-second pauses before closing the socket.

Wall-clock times and control values are embedded as rationals; channel
levels as integers.  The helper library functions `EEGsynth.rescale`,
`EEGsynth.limit`, the `patch` value source and the `ArtNet` transmitter
live in lib/ files that are not part of the sources at hand; they are
modelled from the specification where noted.
-/

set_option maxRecDepth 8000

namespace OutputArtnet

/-- `dmxsize = 512`: the module forces the universe size to 512
(outputartnet.py line 90) regardless of how many channels are configured. -/
def dmxsize : Nat := 512

/-- The external per-cycle inputs of one control cycle.  Modelled from the
spec: `patch.getfloat(section, key)` (EEGsynth patch, lib not in the sources)
is a keyed lookup returning a float or an absent marker; `input i` is the
value of key `channel%03d (i+1)` in section input, and `scale i` / `offset i`
the per-channel entries of the scale / offset sections. -/
structure CycleInputs where
  input : Nat → Option ℚ
  scale : Nat → Option ℚ
  offset : Nat → Option ℚ

/-- Modelled from the spec: `EEGsynth.rescale(x, slope, offset)`
(lib/EEGsynth.py, not among the sources) computes `x * slope + offset`. -/
def rescale (x slope offset : ℚ) : ℚ := x * slope + offset

/-- Modelled from the spec: `EEGsynth.limit(x, lo, hi)` (lib/EEGsynth.py,
not among the sources) clamps `x` into `[lo, hi]`. -/
def limit (x lo hi : ℚ) : ℚ := min (max x lo) hi

/-- Python `int()` on a float: truncation toward zero
(outputartnet.py line 133 does `chanval = int(chanval)`). -/
def pyInt (q : ℚ) : ℤ := if 0 ≤ q then ⌊q⌋ else ⌈q⌉

/-- The level the scan computes for a present raw value: rescale by the
per-channel slope/offset, clamp into `[0, 255]`, truncate to an integer
(outputartnet.py lines 126-133). -/
def mapChannel (scale offset v : ℚ) : ℤ := pyInt (limit (rescale v scale offset) 0 255)

/-- The level the cycle computes for channel index `i`, `none` when the value
source has no current value (outputartnet.py lines 118-133); scale defaults
to 255 and offset to 0 when unconfigured. -/
def computedLevel (inp : CycleInputs) (i : Nat) : Option ℤ :=
  (inp.input i).map fun v => mapChannel ((inp.scale i).getD 255) ((inp.offset i).getD 0) v

/-- State threaded through one channel scan: the frame, the `update` flag and
the emitted channel-changed notifications (index, new value), in order. -/
structure ScanState where
  frame : List ℤ
  update : Bool
  notes : List (Nat × ℤ)

/-- One iteration of the channel loop of `_loop_once`
(outputartnet.py lines 117-139): skip an absent value, otherwise rescale,
clamp, truncate, and on a difference with the stored entry write the new
value, set the `update` flag and emit a notification. -/
def stepChannel (inp : CycleInputs) (st : ScanState) (i : Nat) : ScanState :=
  match inp.input i with
  | none => st
  | some chanval =>
    let scale := (inp.scale i).getD 255
    let offset := (inp.offset i).getD 0
    let v1 := rescale chanval scale offset
    let v2 := limit v1 0 255
    let lvl := pyInt v2
    if st.frame.getD i 0 ≠ lvl then
      { frame := st.frame.set i lvl, update := true, notes := st.notes ++ [(i, lvl)] }
    else st

/-- The channel scan of `_loop_once` (outputartnet.py lines 114-139):
`update = False`, then the loop over channel indices `0 .. dmxsize - 1`. -/
def scanChannels (inp : CycleInputs) (frame : List ℤ) : ScanState :=
  (List.range dmxsize).foldl (stepChannel inp) ⟨frame, false, []⟩

/-- A transmission: the frame handed to `artnet.broadcastDMX` together with
the address triple. -/
structure Sent where
  frame : List ℤ
  addr : List ℤ

/-- The module state shared between `_start`, `_loop_once` and `_stop`:
the address triple, the DMX frame and the last-sent timestamp `prevtime`. -/
structure EngineState where
  address : List ℤ
  frame : List ℤ
  prevtime : ℚ

/-- `address = [0, 0, universe]` (outputartnet.py line 77): net and sub-net
are hardcoded to 0, only the universe number comes from configuration. -/
def mkAddress (univ : ℤ) : List ℤ := [0, 0, univ]

/-- `_start` (outputartnet.py lines 77-99): build the address, force
`dmxsize = 512`, make an all-zero frame, broadcast it once (blank out) and
set `prevtime` to the current time `t0`. -/
def startEngine (univ : ℤ) (t0 : ℚ) : EngineState × List Sent :=
  let address := mkAddress univ
  let dmxframe : List ℤ := List.replicate dmxsize 0
  (⟨address, dmxframe, t0⟩, [⟨dmxframe, address⟩])

/-- The maintenance (heartbeat) interval: 0.5 seconds
(outputartnet.py line 145). -/
def maintenanceInterval : ℚ := 1 / 2

/-- One control cycle `_loop_once` (outputartnet.py lines 106-148) at
wall-clock time `now`: scan all channels, then send the frame if `update`
is set, else send it as a heartbeat if more than `maintenanceInterval` has
elapsed since `prevtime`; in both sending cases reset `prevtime` to `now`.
Returns the new state and the transmissions of this cycle. -/
def loopOnce (inp : CycleInputs) (now : ℚ) (st : EngineState) : EngineState × List Sent :=
  let scan := scanChannels inp st.frame
  if scan.update then
    ({ st with frame := scan.frame, prevtime := now }, [⟨scan.frame, st.address⟩])
  else if now - st.prevtime > maintenanceInterval then
    ({ st with frame := scan.frame, prevtime := now }, [⟨scan.frame, st.address⟩])
  else
    ({ st with frame := scan.frame }, [])

/-- `_loop_forever`, unrolled over a finite schedule of cycles: each entry
gives the cycle's external inputs and its wall-clock time.  Returns the
final state and all transmissions in order. -/
def runCycles : List (CycleInputs × ℚ) → EngineState → EngineState × List Sent
  | [], st => (st, [])
  | (inp, now) :: rest, st =>
    let r := loopOnce inp now st
    let r2 := runCycles rest r.1
    (r2.1, r.2 ++ r2.2)

/-- An observable step of the shutdown sequence `_stop`: a broadcast, a
`time.sleep`, or closing the socket. -/
inductive StopEvent where
  | send (s : Sent)
  | sleep (d : ℚ)
  | closeSocket

/-- The blank frame `[0] * 512` built by `_stop` (outputartnet.py line 171). -/
def blankFrame : List ℤ := List.replicate 512 0

/-- `_stop` (outputartnet.py lines 165-184): six broadcasts of the blank
frame, each followed by `time.sleep(0.1)`, then `artnet.close()`.  The
current frame contents play no role: `_stop` builds a fresh blank frame. -/
def stopEngine (st : EngineState) : List StopEvent :=
  [ .send ⟨blankFrame, st.address⟩, .sleep (1 / 10),
    .send ⟨blankFrame, st.address⟩, .sleep (1 / 10),
    .send ⟨blankFrame, st.address⟩, .sleep (1 / 10),
    .send ⟨blankFrame, st.address⟩, .sleep (1 / 10),
    .send ⟨blankFrame, st.address⟩, .sleep (1 / 10),
    .send ⟨blankFrame, st.address⟩, .sleep (1 / 10),
    .closeSocket ]

/-- One send followed by the fixed 0.1-second pause, as repeated by `_stop`. -/
def sendThenPause (addr : List ℤ) : List StopEvent :=
  [.send ⟨blankFrame, addr⟩, .sleep (1 / 10)]

/-- The frames actually transmitted during shutdown, in order. -/
def stopSends (st : EngineState) : List Sent :=
  (stopEngine st).filterMap fun e =>
    match e with
    | .send s => some s
    | _ => none

/-- Every transmission of a whole run: the startup blank broadcast, the
per-cycle sends, and the shutdown sends, in order. -/
def allSends (univ : ℤ) (t0 : ℚ) (evs : List (CycleInputs × ℚ)) : List Sent :=
  let s := startEngine univ t0
  let r := runCycles evs s.1
  s.2 ++ r.2 ++ stopSends r.1

/-- Modelled from the spec: `ArtNet.ArtNet.broadcastDMX` (lib/ArtNet.py, not
among the sources) reports a send failure as a recoverable outcome rather
than raising; the module ignores the outcome. -/
inductive SendOutcome where
  | success
  | networkError

/-- `runCycles` with each transmission annotated by the outcome `outs k` of
the cycle (cycle counter `k`); the loop body itself never looks at the
outcome, exactly as `_loop_once` ignores the result of `broadcastDMX`. -/
def runCyclesR (outs : Nat → SendOutcome) : Nat → List (CycleInputs × ℚ) → EngineState →
    EngineState × List (Sent × SendOutcome)
  | _, [], st => (st, [])
  | k, (inp, now) :: rest, st =>
    let r := loopOnce inp now st
    let r2 := runCyclesR outs (k + 1) rest r.1
    (r2.1, r.2.map (fun s => (s, outs k)) ++ r2.2)

/-! ### Helper lemmas about one channel step -/

/-- `changed inp frame i`: the cycle computes a level for channel `i` and it
differs from the level stored in `frame` at `i`. -/
def changed (inp : CycleInputs) (frame : List ℤ) (i : Nat) : Bool :=
  match computedLevel inp i with
  | none => false
  | some lvl => frame.getD i 0 != lvl

/-- Concrete cycle inputs for witnesses: channel index 3 present with raw
value 1, every other channel absent; no scale/offset configured. -/
def witInputs : CycleInputs :=
  ⟨fun i => if i = 3 then some 1 else none, fun _ => none, fun _ => none⟩

/-- Concrete cycle inputs for witnesses: channel index 7 present with raw
value 1/2, every other channel absent; no scale/offset configured. -/
def witInputsB : CycleInputs :=
  ⟨fun i => if i = 7 then some (1 / 2) else none, fun _ => none, fun _ => none⟩

/-- Concrete cycle inputs for the rounding counterexample: channel index 0
present with raw value 7/10, scale 1 and offset 0 configured. -/
def cexInputs : CycleInputs :=
  ⟨fun i => if i = 0 then some (7 / 10) else none, fun _ => some 1, fun _ => some 0⟩

theorem computedLevel_none (inp : CycleInputs) (i : Nat) (h : inp.input i = none) :
    computedLevel inp i = none := by
  simp [computedLevel, h]

theorem stepChannel_eq (inp : CycleInputs) (st : ScanState) (i : Nat) :
    stepChannel inp st i =
      match computedLevel inp i with
      | none => st
      | some lvl =>
        if st.frame.getD i 0 ≠ lvl then
          { frame := st.frame.set i lvl, update := true, notes := st.notes ++ [(i, lvl)] }
        else st := by
  cases h : inp.input i <;> simp [stepChannel, computedLevel, mapChannel, h]

theorem stepChannel_length (inp : CycleInputs) (st : ScanState) (i : Nat) :
    (stepChannel inp st i).frame.length = st.frame.length := by
  rcases hc : computedLevel inp i with _ | lvl
  · simp only [stepChannel_eq, hc]
  · simp only [stepChannel_eq, hc]
    by_cases h : st.frame.getD i 0 ≠ lvl
    · rw [if_pos h]
      exact List.length_set st.frame i lvl
    · rw [if_neg h]

theorem stepChannel_getD_ne (inp : CycleInputs) (st : ScanState) (i j : Nat) (hij : i ≠ j) :
    (stepChannel inp st i).frame.getD j 0 = st.frame.getD j 0 := by
  rcases hc : computedLevel inp i with _ | lvl
  · simp only [stepChannel_eq, hc]
  · simp only [stepChannel_eq, hc]
    by_cases h : st.frame.getD i 0 ≠ lvl
    · rw [if_pos h]
      show (st.frame.set i lvl).getD j 0 = st.frame.getD j 0
      rw [List.getD_eq_getElem?_getD, List.getElem?_set_ne hij, ← List.getD_eq_getElem?_getD]
    · rw [if_neg h]

theorem stepChannel_update (inp : CycleInputs) (st : ScanState) (i : Nat) :
    (stepChannel inp st i).update = (st.update || changed inp st.frame i) := by
  rcases hc : computedLevel inp i with _ | lvl
  · simp only [stepChannel_eq, changed, hc, Bool.or_false]
  · simp only [stepChannel_eq, changed, hc]
    by_cases h : st.frame.getD i 0 ≠ lvl
    · rw [if_pos h]
      have hb : (st.frame.getD i 0 != lvl) = true := bne_iff_ne.mpr h
      rw [hb, Bool.or_true]
    · rw [if_neg h]
      push_neg at h
      have hb : (st.frame.getD i 0 != lvl) = false := by
        rw [bne_eq_false_iff_eq]
        exact h
      rw [hb, Bool.or_false]

theorem stepChannel_notes_mono (inp : CycleInputs) (st : ScanState) (i : Nat) (p : Nat × ℤ)
    (h : p ∈ st.notes) : p ∈ (stepChannel inp st i).notes := by
  rcases hc : computedLevel inp i with _ | lvl
  · simp only [stepChannel_eq, hc]
    exact h
  · simp only [stepChannel_eq, hc]
    by_cases hne : st.frame.getD i 0 ≠ lvl
    · rw [if_pos hne]
      exact List.mem_append_left _ h
    · rw [if_neg hne]
      exact h

/-! ### Helper lemmas about the fold over the channel indices -/

theorem foldl_step_length (inp : CycleInputs) (L : List Nat) (st : ScanState) :
    (L.foldl (stepChannel inp) st).frame.length = st.frame.length := by
  induction L generalizing st with
  | nil => rfl
  | cons a L ih => rw [List.foldl_cons, ih, stepChannel_length]

theorem foldl_step_getD_not_mem (inp : CycleInputs) (L : List Nat) (st : ScanState) (j : Nat)
    (hj : j ∉ L) :
    (L.foldl (stepChannel inp) st).frame.getD j 0 = st.frame.getD j 0 := by
  induction L generalizing st with
  | nil => rfl
  | cons a L ih =>
    rw [List.foldl_cons, ih _ (fun h => hj (List.mem_cons_of_mem a h)),
      stepChannel_getD_ne inp st a j (fun h => hj (h ▸ List.mem_cons_self a L))]

theorem foldl_step_getD_none (inp : CycleInputs) (L : List Nat) (st : ScanState) (j : Nat)
    (hc : computedLevel inp j = none) :
    (L.foldl (stepChannel inp) st).frame.getD j 0 = st.frame.getD j 0 := by
  induction L generalizing st with
  | nil => rfl
  | cons a L ih =>
    rw [List.foldl_cons, ih]
    by_cases ha : a = j
    · subst ha
      simp only [stepChannel_eq, hc]
    · exact stepChannel_getD_ne inp st a j ha

theorem scan_update_formula (inp : CycleInputs) (n : Nat) (st : ScanState) :
    ((List.range n).foldl (stepChannel inp) st).update
      = (st.update || (List.range n).any (changed inp st.frame)) := by
  induction n with
  | zero => simp
  | succ n ih =>
    rw [List.range_succ, List.foldl_append]
    simp only [List.foldl_cons, List.foldl_nil]
    rw [stepChannel_update, ih]
    have hfr : ((List.range n).foldl (stepChannel inp) st).frame.getD n 0 = st.frame.getD n 0 :=
      foldl_step_getD_not_mem inp _ st n (by simp)
    have hch : changed inp ((List.range n).foldl (stepChannel inp) st).frame n
        = changed inp st.frame n := by
      unfold changed
      rw [hfr]
    rw [hch, List.any_append]
    simp [Bool.or_assoc]

theorem scan_frame_getD (inp : CycleInputs) (n : Nat) (st : ScanState) (i : Nat)
    (hin : i < n) (hlen : i < st.frame.length) :
    ((List.range n).foldl (stepChannel inp) st).frame.getD i 0
      = (computedLevel inp i).getD (st.frame.getD i 0) := by
  induction n with
  | zero => omega
  | succ n ih =>
    rw [List.range_succ, List.foldl_append]
    simp only [List.foldl_cons, List.foldl_nil]
    by_cases hi : i < n
    · rw [stepChannel_getD_ne inp _ n i (by omega), ih hi]
    · have hieq : i = n := by omega
      subst hieq
      have hfr : ((List.range i).foldl (stepChannel inp) st).frame.getD i 0
          = st.frame.getD i 0 :=
        foldl_step_getD_not_mem inp _ st i (by simp)
      have hlen2 : i < ((List.range i).foldl (stepChannel inp) st).frame.length := by
        rw [foldl_step_length]
        exact hlen
      rcases hc : computedLevel inp i with _ | lvl
      · simp only [stepChannel_eq, hc, Option.getD_none]
        exact hfr
      · simp only [stepChannel_eq, hc, Option.getD_some]
        by_cases hne : ((List.range i).foldl (stepChannel inp) st).frame.getD i 0 ≠ lvl
        · rw [if_pos hne]
          show (((List.range i).foldl (stepChannel inp) st).frame.set i lvl).getD i 0 = lvl
          rw [List.getD_eq_getElem?_getD, List.getElem?_set_self hlen2]
          rfl
        · rw [if_neg hne]
          push_neg at hne
          exact hne

theorem scan_notes_mem (inp : CycleInputs) (n : Nat) (st : ScanState) (i : Nat) (lvl : ℤ)
    (hin : i < n) (hc : computedLevel inp i = some lvl) (hne : st.frame.getD i 0 ≠ lvl) :
    (i, lvl) ∈ ((List.range n).foldl (stepChannel inp) st).notes := by
  induction n with
  | zero => omega
  | succ n ih =>
    rw [List.range_succ, List.foldl_append]
    simp only [List.foldl_cons, List.foldl_nil]
    by_cases hi : i < n
    · exact stepChannel_notes_mono inp _ n _ (ih hi)
    · have hieq : i = n := by omega
      subst hieq
      have hfr : ((List.range i).foldl (stepChannel inp) st).frame.getD i 0
          = st.frame.getD i 0 :=
        foldl_step_getD_not_mem inp _ st i (by simp)
      have hne2 : ((List.range i).foldl (stepChannel inp) st).frame.getD i 0 ≠ lvl := by
        rw [hfr]
        exact hne
      simp only [stepChannel_eq, hc, if_pos hne2]
      simp

/-! ### The fold lemmas specialized to `scanChannels` -/

theorem scanChannels_length (inp : CycleInputs) (frame : List ℤ) :
    (scanChannels inp frame).frame.length = frame.length :=
  foldl_step_length inp _ ⟨frame, false, []⟩

theorem scanChannels_update_eq (inp : CycleInputs) (frame : List ℤ) :
    (scanChannels inp frame).update = (List.range 512).any (changed inp frame) := by
  unfold scanChannels dmxsize
  rw [scan_update_formula]
  simp

theorem scanChannels_getD (inp : CycleInputs) (frame : List ℤ) (i : Nat)
    (hin : i < 512) (hlen : i < frame.length) :
    (scanChannels inp frame).frame.getD i 0 = (computedLevel inp i).getD (frame.getD i 0) :=
  scan_frame_getD inp dmxsize ⟨frame, false, []⟩ i hin hlen

theorem scanChannels_getD_none (inp : CycleInputs) (frame : List ℤ) (j : Nat)
    (hc : computedLevel inp j = none) :
    (scanChannels inp frame).frame.getD j 0 = frame.getD j 0 :=
  foldl_step_getD_none inp _ ⟨frame, false, []⟩ j hc

theorem scanChannels_notes_mem (inp : CycleInputs) (frame : List ℤ) (i : Nat) (lvl : ℤ)
    (hin : i < 512) (hc : computedLevel inp i = some lvl) (hne : frame.getD i 0 ≠ lvl) :
    (i, lvl) ∈ (scanChannels inp frame).notes :=
  scan_notes_mem inp dmxsize ⟨frame, false, []⟩ i lvl hin hc hne

/-! ### Helper lemmas about the engine loop -/

theorem loopOnce_frame (inp : CycleInputs) (now : ℚ) (st : EngineState) :
    (loopOnce inp now st).1.frame = (scanChannels inp st.frame).frame := by
  simp only [loopOnce]
  split_ifs <;> rfl

theorem loopOnce_address (inp : CycleInputs) (now : ℚ) (st : EngineState) :
    (loopOnce inp now st).1.address = st.address := by
  simp only [loopOnce]
  split_ifs <;> rfl

theorem loopOnce_sends_mem (inp : CycleInputs) (now : ℚ) (st : EngineState) (s : Sent)
    (h : s ∈ (loopOnce inp now st).2) :
    s = ⟨(scanChannels inp st.frame).frame, st.address⟩ := by
  simp only [loopOnce] at h
  split_ifs at h
  · simpa using h
  · simpa using h
  · simp at h

theorem runCycles_fst_cons (inp : CycleInputs) (now : ℚ) (evs : List (CycleInputs × ℚ))
    (st : EngineState) :
    (runCycles ((inp, now) :: evs) st).1 = (runCycles evs (loopOnce inp now st).1).1 := rfl

theorem runCycles_snd_cons (inp : CycleInputs) (now : ℚ) (evs : List (CycleInputs × ℚ))
    (st : EngineState) :
    (runCycles ((inp, now) :: evs) st).2
      = (loopOnce inp now st).2 ++ (runCycles evs (loopOnce inp now st).1).2 := rfl

theorem runCycles_state (evs : List (CycleInputs × ℚ)) (st : EngineState) :
    (runCycles evs st).1.address = st.address ∧
    (runCycles evs st).1.frame.length = st.frame.length := by
  induction evs generalizing st with
  | nil => exact ⟨rfl, rfl⟩
  | cons p evs ih =>
    rcases p with ⟨inp, now⟩
    constructor
    · rw [runCycles_fst_cons, (ih _).1, loopOnce_address]
    · rw [runCycles_fst_cons, (ih _).2, loopOnce_frame, scanChannels_length]

theorem runCycles_sends_mem (evs : List (CycleInputs × ℚ)) (st : EngineState) (s : Sent)
    (h : s ∈ (runCycles evs st).2) :
    s.frame.length = st.frame.length ∧ s.addr = st.address := by
  induction evs generalizing st with
  | nil => simp [runCycles] at h
  | cons p evs ih =>
    rcases p with ⟨inp, now⟩
    rw [runCycles_snd_cons] at h
    rcases List.mem_append.mp h with h1 | h2
    · have hse := loopOnce_sends_mem inp now st s h1
      subst hse
      exact ⟨scanChannels_length inp st.frame, rfl⟩
    · have hrec := ih _ h2
      constructor
      · rw [hrec.1, loopOnce_frame, scanChannels_length]
      · rw [hrec.2, loopOnce_address]

theorem runCycles_getD_absent (j : Nat) (evs : List (CycleInputs × ℚ)) (st : EngineState)
    (h : ∀ p ∈ evs, p.1.input j = none) :
    (runCycles evs st).1.frame.getD j 0 = st.frame.getD j 0 := by
  induction evs generalizing st with
  | nil => rfl
  | cons p evs ih =>
    rcases p with ⟨inp, now⟩
    rw [runCycles_fst_cons, ih _ (fun q hq => h q (List.mem_cons_of_mem _ hq)),
      loopOnce_frame]
    exact scanChannels_getD_none inp st.frame j
      (computedLevel_none inp j (h (inp, now) (List.mem_cons_self _ _)))

theorem stopSends_eq (st : EngineState) :
    stopSends st = List.replicate 6 ⟨blankFrame, st.address⟩ := rfl

/-! ### Helper lemmas about the value mapping -/

theorem limit_nonneg (x : ℚ) : 0 ≤ limit x 0 255 :=
  le_min (le_max_right x 0) (by norm_num)

theorem limit_le_255 (x : ℚ) : limit x 0 255 ≤ 255 := min_le_right _ _

theorem pyInt_of_nonneg (q : ℚ) (h : 0 ≤ q) : pyInt q = ⌊q⌋ := if_pos h

theorem mapChannel_eq_floor (scale offset v : ℚ) :
    mapChannel scale offset v = ⌊limit (rescale v scale offset) 0 255⌋ :=
  pyInt_of_nonneg _ (limit_nonneg _)

theorem runCyclesR_fst_cons (outs : Nat → SendOutcome) (k : Nat) (inp : CycleInputs)
    (now : ℚ) (evs : List (CycleInputs × ℚ)) (st : EngineState) :
    (runCyclesR outs k ((inp, now) :: evs) st).1
      = (runCyclesR outs (k + 1) evs (loopOnce inp now st).1).1 := rfl

theorem runCyclesR_snd_cons (outs : Nat → SendOutcome) (k : Nat) (inp : CycleInputs)
    (now : ℚ) (evs : List (CycleInputs × ℚ)) (st : EngineState) :
    (runCyclesR outs k ((inp, now) :: evs) st).2
      = (loopOnce inp now st).2.map (fun s => (s, outs k))
        ++ (runCyclesR outs (k + 1) evs (loopOnce inp now st).1).2 := rfl

/-! ### The claims -/

/-- C1: in every control cycle, after scanning all channels, the frame is
transmitted exactly when the cycle is Dirty (the scan set the update flag)
or the cycle is Idle and strictly more than 0.5 time units elapsed since
the last-sent timestamp; in both cases, and only in those cases, the
last-sent timestamp is reset to the current time. -/
theorem transmit_iff_dirty_or_heartbeat (inp : CycleInputs) (now : ℚ) (st : EngineState) :
    maintenanceInterval = 1 / 2 ∧
    ((loopOnce inp now st).2 ≠ [] ↔
      (scanChannels inp st.frame).update = true ∨
        ((scanChannels inp st.frame).update = false ∧
          now - st.prevtime > maintenanceInterval)) ∧
    ((loopOnce inp now st).2 ≠ [] → (loopOnce inp now st).1.prevtime = now) ∧
    ((loopOnce inp now st).2 = [] → (loopOnce inp now st).1.prevtime = st.prevtime) := by
  refine ⟨rfl, ?_⟩
  simp only [loopOnce]
  cases hu : (scanChannels inp st.frame).update with
  | false =>
    by_cases ht : now - st.prevtime > maintenanceInterval
    · simp [ht]
    · simp [ht]
  | true => simp

/-- C4: for every resolved per-channel scale and offset and every raw value,
including values far outside the nominal range, the mapped channel level is
an integer in the closed interval [0, 255]. -/
theorem mapped_level_in_range (scale offset v : ℚ) :
    0 ≤ mapChannel scale offset v ∧ mapChannel scale offset v ≤ 255 := by
  rw [mapChannel_eq_floor]
  constructor
  · exact Int.le_floor.mpr (by exact_mod_cast limit_nonneg (rescale v scale offset))
  · have h2 : ⌊limit (rescale v scale offset) 0 255⌋ ≤ ⌊(255 : ℚ)⌋ :=
      Int.floor_le_floor (limit_le_255 (rescale v scale offset))
    simpa using h2

/-- C7: the shutdown sequence is six (hence at least five) broadcasts of the
all-zero 512-channel frame, each followed by the fixed 0.1 pause, and then
the socket close; every shutdown frame, in particular the final one, has
every channel equal to 0, whatever the engine frame held. -/
theorem shutdown_blank_sequence (st : EngineState) :
    stopEngine st = (List.replicate 6 (sendThenPause st.address)).flatten
        ++ [StopEvent.closeSocket] ∧
    5 ≤ (stopSends st).length ∧
    (∀ s ∈ stopSends st, s.frame.length = 512 ∧ ∀ x ∈ s.frame, x = 0) ∧
    (stopSends st).getLast? = some ⟨blankFrame, st.address⟩ := by
  refine ⟨rfl, ?_, ?_, ?_⟩
  · rw [stopSends_eq, List.length_replicate]
    norm_num
  · intro s hs
    rw [stopSends_eq] at hs
    have h2 := List.eq_of_mem_replicate hs
    subst h2
    refine ⟨List.length_replicate 512 0, ?_⟩
    intro x hx
    exact List.eq_of_mem_replicate hx
  · rw [stopSends_eq]
    rfl

/-- C8: the loop ignores the outcome of every broadcast: whatever the send
outcomes, the run of the cycles reaches the same final state and makes the
same transmissions as the outcome-free run, so a failed send never
terminates the loop and the next change or heartbeat retries naturally. -/
theorem send_outcome_never_stops_loop (outs : Nat → SendOutcome) (k : Nat)
    (evs : List (CycleInputs × ℚ)) (st : EngineState) :
    (runCyclesR outs k evs st).1 = (runCycles evs st).1 ∧
    (runCyclesR outs k evs st).2.map Prod.fst = (runCycles evs st).2 := by
  induction evs generalizing k st with
  | nil => exact ⟨rfl, rfl⟩
  | cons p evs ih =>
    rcases p with ⟨inp, now⟩
    constructor
    · rw [runCyclesR_fst_cons, runCycles_fst_cons]
      exact (ih (k + 1) (loopOnce inp now st).1).1
    · rw [runCyclesR_snd_cons, runCycles_snd_cons, List.map_append,
        (ih (k + 1) (loopOnce inp now st).1).2]
      congr 1
      rw [List.map_map, show (Prod.fst ∘ fun s : Sent => (s, outs k)) = id from rfl,
        List.map_id]

/-- C9: before the first cycle, the start phase broadcasts exactly one
complete all-zero 512-channel frame to the configured universe address and
initializes the last-sent timestamp to the current time. -/
theorem startup_blank_broadcast (univ : ℤ) (t0 : ℚ) :
    (startEngine univ t0).2 = [⟨List.replicate 512 0, mkAddress univ⟩] ∧
    (startEngine univ t0).1.frame = List.replicate 512 0 ∧
    (∀ x ∈ (startEngine univ t0).1.frame, x = 0) ∧
    (startEngine univ t0).1.prevtime = t0 ∧
    (startEngine univ t0).1.address = mkAddress univ := by
  refine ⟨rfl, rfl, ?_, rfl, rfl⟩
  intro x hx
  exact List.eq_of_mem_replicate hx

/-- C10: the address triple is [0, 0, universe]: net and sub-net are
hardcoded to 0 and only the universe number comes from configuration; the
address is never modified after start, and every transmission of a whole
run carries it. -/
theorem address_net_subnet_zero (univ : ℤ) (t0 : ℚ) (evs : List (CycleInputs × ℚ)) :
    mkAddress univ = [0, 0, univ] ∧
    (runCycles evs (startEngine univ t0).1).1.address = mkAddress univ ∧
    ∀ s ∈ allSends univ t0 evs, s.addr = mkAddress univ := by
  refine ⟨rfl, ?_, ?_⟩
  · rw [(runCycles_state evs (startEngine univ t0).1).1]
    rfl
  · intro s hs
    simp only [allSends, List.mem_append] at hs
    rcases hs with (hs | hs) | hs
    · have h2 : s = ⟨List.replicate dmxsize 0, mkAddress univ⟩ := by
        simpa [startEngine] using hs
      rw [h2]
    · rw [(runCycles_sends_mem evs (startEngine univ t0).1 s hs).2]
      rfl
    · rw [stopSends_eq] at hs
      rw [List.eq_of_mem_replicate hs]
      show (runCycles evs (startEngine univ t0).1).1.address = mkAddress univ
      rw [(runCycles_state evs (startEngine univ t0).1).1]
      rfl

/-- C2: the update flag at the end of the channel scan is true iff at least
one channel's newly computed level differs from the level previously stored
in the frame at that index; when it differs, the new value is stored at the
index and a channel-changed notification is emitted. -/
theorem dirty_iff_channel_changed (inp : CycleInputs) (frame : List ℤ)
    (h : frame.length = 512) :
    ((scanChannels inp frame).update = true ↔
      ∃ i, i < 512 ∧ ∃ lvl, computedLevel inp i = some lvl ∧ frame.getD i 0 ≠ lvl) ∧
    ∀ i lvl, i < 512 → computedLevel inp i = some lvl → frame.getD i 0 ≠ lvl →
      (scanChannels inp frame).frame.getD i 0 = lvl ∧
        (i, lvl) ∈ (scanChannels inp frame).notes := by
  constructor
  · rw [scanChannels_update_eq, List.any_eq_true]
    constructor
    · rintro ⟨i, hmem, hch⟩
      rw [List.mem_range] at hmem
      rcases hc : computedLevel inp i with _ | lvl
      · simp only [changed, hc] at hch
        exact Bool.noConfusion hch
      · simp only [changed, hc] at hch
        exact ⟨i, hmem, lvl, hc, bne_iff_ne.mp hch⟩
    · rintro ⟨i, hi, lvl, hc, hne⟩
      refine ⟨i, List.mem_range.mpr hi, ?_⟩
      simp only [changed, hc]
      exact bne_iff_ne.mpr hne
  · intro i lvl hi hc hne
    refine ⟨?_, scanChannels_notes_mem inp frame i lvl hi hc hne⟩
    rw [scanChannels_getD inp frame i hi (by omega), hc]
    rfl

/-- C2 witness: the statement at the concrete inputs `witInputs` on the
all-zero 512-element frame. -/
theorem dirty_iff_channel_changed_witness :
    ((scanChannels witInputs (List.replicate 512 0)).update = true ↔
      ∃ i, i < 512 ∧ ∃ lvl, computedLevel witInputs i = some lvl ∧
        (List.replicate 512 (0 : ℤ)).getD i 0 ≠ lvl) ∧
    ∀ i lvl, i < 512 → computedLevel witInputs i = some lvl →
      (List.replicate 512 (0 : ℤ)).getD i 0 ≠ lvl →
      (scanChannels witInputs (List.replicate 512 0)).frame.getD i 0 = lvl ∧
        (i, lvl) ∈ (scanChannels witInputs (List.replicate 512 0)).notes :=
  dirty_iff_channel_changed witInputs (List.replicate 512 0) (List.length_replicate 512 0)

theorem cex_limit_eval : limit (rescale (7 / 10) 1 0) 0 255 = 7 / 10 := by
  unfold limit rescale
  rw [max_eq_left (by norm_num), min_eq_left (by norm_num)]
  norm_num

/-- C3 counterexample: at channel index 0 with raw value 7/10, scale 1 and
offset 0, round(clamp(7/10 * 1 + 0, 0, 255)) = 1, but the scan writes level
0 into the frame: the code truncates with int() instead of rounding to the
nearest integer. -/
theorem level_round_counterexample :
    (scanChannels cexInputs (List.replicate 512 0)).frame.getD 0 0 = 0 ∧
    round (limit (rescale (7 / 10) 1 0) 0 255) = 1 ∧
    (0 : ℤ) ≠ 1 := by
  refine ⟨?_, ?_, by norm_num⟩
  · have hc : computedLevel cexInputs 0 = some (mapChannel 1 0 (7 / 10)) := by
      simp [computedLevel, cexInputs]
    rw [scanChannels_getD cexInputs (List.replicate 512 0) 0 (by norm_num)
        (by rw [List.length_replicate]; norm_num), hc]
    show mapChannel 1 0 (7 / 10) = 0
    rw [mapChannel_eq_floor, cex_limit_eval]
    norm_num
  · rw [cex_limit_eval, round_eq]
    norm_num

/-- C3 (amended): for every channel index with a present raw value and
resolved per-channel scale and offset, the level written into the frame
equals int(clamp(v*scale+offset, 0, 255)) — Python truncation toward zero,
here the floor of the clamped value — rather than the rounded value. -/
theorem level_written_truncates (inp : CycleInputs) (frame : List ℤ) (i : Nat) (v : ℚ)
    (h : frame.length = 512) (hi : i < 512) (hv : inp.input i = some v) :
    (scanChannels inp frame).frame.getD i 0 =
      pyInt (limit (rescale v ((inp.scale i).getD 255) ((inp.offset i).getD 0)) 0 255) ∧
    (scanChannels inp frame).frame.getD i 0 =
      ⌊limit (rescale v ((inp.scale i).getD 255) ((inp.offset i).getD 0)) 0 255⌋ := by
  have hc : computedLevel inp i
      = some (mapChannel ((inp.scale i).getD 255) ((inp.offset i).getD 0) v) := by
    simp [computedLevel, hv]
  have h1 : (scanChannels inp frame).frame.getD i 0
      = mapChannel ((inp.scale i).getD 255) ((inp.offset i).getD 0) v := by
    rw [scanChannels_getD inp frame i hi (by omega), hc]
    rfl
  exact ⟨h1, by rw [h1, mapChannel_eq_floor]⟩

/-- C3 witness: the amended statement at the concrete input of the
counterexample. -/
theorem level_written_truncates_witness :
    (scanChannels cexInputs (List.replicate 512 0)).frame.getD 0 0 =
      pyInt (limit (rescale (7 / 10) ((cexInputs.scale 0).getD 255)
        ((cexInputs.offset 0).getD 0)) 0 255) ∧
    (scanChannels cexInputs (List.replicate 512 0)).frame.getD 0 0 =
      ⌊limit (rescale (7 / 10) ((cexInputs.scale 0).getD 255)
        ((cexInputs.offset 0).getD 0)) 0 255⌋ :=
  level_written_truncates cexInputs (List.replicate 512 0) 0 (7 / 10)
    (List.length_replicate 512 0) (by norm_num) rfl

/-- C5: the frame has length exactly 512 after start and after every cycle,
and every transmission of a run (startup blank, change or heartbeat send,
and each shutdown send) carries a complete 512-element frame. -/
theorem frame_length_always_512 (univ : ℤ) (t0 : ℚ) (evs : List (CycleInputs × ℚ)) :
    (startEngine univ t0).1.frame.length = 512 ∧
    (runCycles evs (startEngine univ t0).1).1.frame.length = 512 ∧
    ∀ s ∈ allSends univ t0 evs, s.frame.length = 512 := by
  have hstart : (startEngine univ t0).1.frame.length = 512 := List.length_replicate 512 0
  refine ⟨hstart, ?_, ?_⟩
  · rw [(runCycles_state evs (startEngine univ t0).1).2, hstart]
  · intro s hs
    simp only [allSends, List.mem_append] at hs
    rcases hs with (hs | hs) | hs
    · have h2 : s = ⟨List.replicate dmxsize 0, mkAddress univ⟩ := by
        simpa [startEngine] using hs
      rw [h2]
      exact List.length_replicate 512 0
    · rw [(runCycles_sends_mem evs (startEngine univ t0).1 s hs).1, hstart]
    · rw [stopSends_eq] at hs
      rw [List.eq_of_mem_replicate hs]
      exact List.length_replicate 512 0

/-- C6: a channel whose value is absent in a cycle keeps its stored frame
entry unchanged that cycle (a no-op, not an error); a channel absent across
every cycle of a run keeps its stored level across the whole run while
other channels change. -/
theorem absent_channel_unchanged (inp : CycleInputs) (frame : List ℤ) (j : Nat)
    (evs : List (CycleInputs × ℚ)) (st : EngineState)
    (h1 : inp.input j = none) (h2 : ∀ p ∈ evs, p.1.input j = none) :
    (scanChannels inp frame).frame.getD j 0 = frame.getD j 0 ∧
    (runCycles evs st).1.frame.getD j 0 = st.frame.getD j 0 :=
  ⟨scanChannels_getD_none inp frame j (computedLevel_none inp j h1),
   runCycles_getD_absent j evs st h2⟩

/-- C6 witness: channel index 5 is absent from `witInputs` and `witInputsB`
while channels 3 and 7 change, over one cycle and over a two-cycle run from
the start state. -/
theorem absent_channel_unchanged_witness :
    (scanChannels witInputs (List.replicate 512 0)).frame.getD 5 0
        = (List.replicate 512 (0 : ℤ)).getD 5 0 ∧
    (runCycles [(witInputs, 0), (witInputsB, 1)] (startEngine 0 0).1).1.frame.getD 5 0
        = (startEngine 0 0).1.frame.getD 5 0 :=
  absent_channel_unchanged witInputs (List.replicate 512 0) 5
    [(witInputs, 0), (witInputsB, 1)] (startEngine 0 0).1 rfl
    (by
      intro p hp
      rcases List.mem_cons.mp hp with hea | hp2
      · subst hea
        rfl
      · have hea := List.mem_singleton.mp hp2
        subst hea
        rfl)

end OutputArtnet
